import Mathlib

/-
Verification of the dependency-graph analyzer (src/package_analyzer.py).

Shallow embedding conventions:
- Python strings are modelled as `List Char` (abbreviated `Str`); the ASCII
  fragment of Python's `str.lower`, `str.strip`, `\w` and `\s` is used, which
  is exact on ASCII input.
- Python dicts (insertion ordered, last assignment wins) are modelled as
  association lists updated by `dictInsert`.
- The network is modelled as an explicit deterministic oracle
  `http : Str → FetchResponse`; the base64/JSON envelope decoding of
  `get_cargo_toml_content` is absorbed into the oracle, which returns the
  decoded `content` field (or its absence, or an HTTP/network failure).
- Python exceptions are modelled with `Except PyErr`.
- The unbounded `while queue:` loops are modelled with an explicit fuel
  parameter; the termination theorem exhibits sufficient fuel.
-/

abbrev Str := List Char

/-- ASCII fragment of Python whitespace (`str.strip()`, regex `\s`). -/
def isSpaceChar (c : Char) : Bool :=
  c = ' ' || c = '\t' || c = '\n' || c = '\r' || c = '\x0b' || c = '\x0c'

/-- Remove trailing characters satisfying `p`. -/
def dropTrailing (p : Char → Bool) (s : Str) : Str :=
  (s.reverse.dropWhile p).reverse

/-- Python `str.strip()` (no argument): remove leading and trailing whitespace. -/
def pyStrip (s : Str) : Str :=
  dropTrailing isSpaceChar (s.dropWhile isSpaceChar)

/-- Python `content.split('\n')`. -/
def splitLines (s : Str) : List Str := s.splitOn '\n'

/-- Python `str.lower()` on the ASCII fragment (`Char.toLower` lowercases
exactly the characters A-Z, as CPython does for ASCII). -/
def lowerStr (s : Str) : Str := s.map Char.toLower

/-- The filter test inlined in both BFS loops (package_analyzer.py lines
144-147 and 205-208): `config['filter_substring'] and
config['filter_substring'].lower() in current_package.lower()`.
An empty (falsy) filter string never skips. -/
def shouldSkip (name filt : Str) : Bool :=
  !filt.isEmpty && decide (List.IsInfix (lowerStr filt) (lowerStr name))

/-- Python dict assignment `d[k] = v`: update the value in place if the key
exists (keeping its position), otherwise append at the end. -/
def dictInsert {α : Type} : List (Str × α) → Str → α → List (Str × α)
  | [], k, v => [(k, v)]
  | (k0, v0) :: rest, k, v =>
    if k0 = k then (k0, v) :: rest else (k0, v0) :: dictInsert rest k v

/-- Python `d.get(k)` as an option (first, hence unique, matching key). -/
def dictGet {α : Type} (d : List (Str × α)) (k : Str) : Option α :=
  (d.find? (fun e => decide (e.fst = k))).map Prod.snd

/-- Python `test_graph.get(current_package, [])`. -/
def tgGet (tg : List (Str × List Str)) (pkg : Str) : List Str :=
  (dictGet tg pkg).getD []

/-- ASCII fragment of the regex class `\w`: letters, digits, underscore. -/
def isWordChar (c : Char) : Bool := c.isAlphanum || c = '_'

/-- The match `re.match(r'^(\w+)\s*=\s*(.+)$', line)` of
`parse_dependencies` (line 95/112).  With backtracking resolved: the first
group is the maximal leading run of word characters (non-empty), then
whitespace, then a literal `=`; `(.+)$` requires at least one further
character.  We return the raw tail after `=`; the caller immediately applies
`.strip()` to group(2), and stripping the raw tail yields the same string as
stripping group(2) (the `\s*` after `=` only eats leading whitespace, which
`.strip()` would remove anyway; when the tail is all whitespace, group(2) is
a single whitespace character, which also strips to the empty string). -/
def matchDepLine (line : Str) : Option (Str × Str) :=
  let nm := line.takeWhile isWordChar
  if nm.isEmpty then none
  else
    match (line.dropWhile isWordChar).dropWhile isSpaceChar with
    | '=' :: tail => if tail.isEmpty then none else some (nm, tail)
    | _ => none

/-- Python `str.strip('"')`: remove all leading and trailing double quotes. -/
def stripQuotes (s : Str) : Str :=
  dropTrailing (fun c => c = '"') (s.dropWhile (fun c => c = '"'))

/-- Match the regex `version\s*=\s*"([^"]+)"` at the start of `s`
(parse_dependencies line 118).  The group is the maximal non-empty run of
non-quote characters after the opening quote, which must be followed by a
closing quote. -/
def matchVersionAt (s : Str) : Option Str :=
  if "version".data.isPrefixOf s then
    match (s.drop "version".data.length).dropWhile isSpaceChar with
    | '=' :: rest =>
      match rest.dropWhile isSpaceChar with
      | '"' :: rest2 =>
        let grp := rest2.takeWhile (fun c => c ≠ '"')
        if grp.isEmpty then none
        else if (rest2.drop grp.length).head? = some '"' then some grp else none
      | _ => none
    | _ => none
  else none

/-- `re.search` of the version pattern: leftmost position where it matches. -/
def searchVersion : Str → Option Str
  | [] => none
  | c :: rest =>
    match matchVersionAt (c :: rest) with
    | some g => some g
    | none => searchVersion rest

/-- Value handling of `parse_dependencies` (lines 117-124): an inline table
keeps its isolated quoted `version` (or the whole table text verbatim);
otherwise the quotes are stripped. -/
def depSpecOfValue (depValue : Str) : Str :=
  if depValue.head? = some '{' ∧ depValue.getLast? = some '}' then
    match searchVersion depValue with
    | some v => v
    | none => depValue
  else stripQuotes depValue

/-- The line loop of `parse_dependencies` (lines 99-124).  The section flag
is set on a `[dependencies]` header; any other bracket line seen while the
flag is set executes `break`, which abandons the rest of the scan. -/
def parseDepsLines : List Str → Bool → List (Str × Str) → List (Str × Str)
  | [], _, deps => deps
  | l :: rest, inSec, deps =>
    let line := pyStrip l
    if line = [] ∨ line.head? = some '#' then parseDepsLines rest inSec deps
    else if line = "[dependencies]".data then parseDepsLines rest true deps
    else if line.head? = some '[' ∧ inSec = true then deps
    else if inSec = true then
      match matchDepLine line with
      | some nv =>
        parseDepsLines rest inSec
          (dictInsert deps nv.fst (depSpecOfValue (pyStrip nv.snd)))
      | none => parseDepsLines rest inSec deps
    else parseDepsLines rest inSec deps

/-- `parse_dependencies` (package_analyzer.py lines 92-126). -/
def parse_dependencies (content : Str) : List (Str × Str) :=
  parseDepsLines (splitLines content) false []

/-! ### Local fixture reading and the test-mode BFS -/

/-- Accumulator pass for Python `str.split()`: `acc` holds the current
word reversed; a whitespace character closes the word (if any), anything
else extends it. -/
def pySplitWsAux : Str → Str → List Str
  | [], acc => if acc.isEmpty then [] else [acc.reverse]
  | c :: cs, acc =>
    if isSpaceChar c then
      if acc.isEmpty then pySplitWsAux cs []
      else acc.reverse :: pySplitWsAux cs []
    else pySplitWsAux cs (c :: acc)

/-- Python `str.split()` with no argument: split on runs of whitespace,
discarding empty pieces. -/
def pySplitWs (s : Str) : List Str := pySplitWsAux s []

/-- `read_test_graph` (package_analyzer.py lines 167-187), modelled on the
file content (the iteration over the file's lines is the iteration over the
content split at newlines; `str.strip` removes the trailing newline of each
line just as it does in the source). -/
def read_test_graph_lines : List Str → List (Str × List Str) → List (Str × List Str)
  | [], graph => graph
  | l :: rest, graph =>
    let line := pyStrip l
    if line = [] ∨ line.head? = some '#' then read_test_graph_lines rest graph
    else
      match pySplitWs line with
      | [] => read_test_graph_lines rest graph
      | package :: more =>
        let dependencies := match more with
          | d :: _ => d.splitOn ','
          | [] => []
        read_test_graph_lines rest (dictInsert graph package dependencies)

def read_test_graph (content : Str) : List (Str × List Str) :=
  read_test_graph_lines (splitLines content) []

/-- The dict comprehension `{dep: "test-version" for dep in dependencies}`
(line 211). -/
def test_record (dependencies : List Str) : List (Str × Str) :=
  dependencies.foldl (fun acc dep => dictInsert acc dep "test-version".data) []

/-- The loop state of `build_test_graph_bfs`: the FIFO frontier, the visit
set, the graph built so far, and the list of packages for which the
dequeue-time cycle message (line 200) was printed. -/
structure TestBfsState where
  queue : List Str
  visited : List Str
  graph : List (Str × List (Str × Str))
  cycles : List Str
deriving DecidableEq

/-- The `while queue:` loop of `build_test_graph_bfs` (lines 196-216), with
explicit fuel.  Each iteration: dequeue; a visited package only records a
cycle observation; otherwise it is added to the visit set; a
filter-matching package is not expanded; otherwise its fixture record is
stored and its not-yet-visited dependencies are appended to the queue. -/
def build_test_graph_bfs_aux (filt : Str) (tg : List (Str × List Str)) :
    Nat → TestBfsState → TestBfsState
  | 0, s => s
  | fuel + 1, s =>
    match s.queue with
    | [] => s
    | current_package :: rest =>
      if current_package ∈ s.visited then
        build_test_graph_bfs_aux filt tg fuel
          ⟨rest, s.visited, s.graph, s.cycles ++ [current_package]⟩
      else
        if shouldSkip current_package filt = true then
          build_test_graph_bfs_aux filt tg fuel
            ⟨rest, current_package :: s.visited, s.graph, s.cycles⟩
        else
          let dependencies := tgGet tg current_package
          build_test_graph_bfs_aux filt tg fuel
            ⟨rest ++ dependencies.filter
                (fun dep => decide (¬ dep ∈ current_package :: s.visited)),
              current_package :: s.visited,
              dictInsert s.graph current_package (test_record dependencies),
              s.cycles⟩

/-- `build_test_graph_bfs` (lines 189-218) seeded with the start package;
the function returns the graph, the auxiliary state carries the
bookkeeping the theorems talk about. -/
def build_test_graph_bfs (filt : Str) (tg : List (Str × List Str))
    (start_package : Str) (fuel : Nat) : List (Str × List (Str × Str)) :=
  (build_test_graph_bfs_aux filt tg fuel ⟨[start_package], [], [], []⟩).graph


/-! ### Remote-mode fetching and BFS -/

/-- The two exception classes raised by the fetching layer
(`ValueError` for a bad URL shape, a 404 or a missing `content` field;
`RuntimeError` for any other API status or a network failure). -/
inductive PyErr where
  | valueError : PyErr
  | runtimeError : PyErr
deriving DecidableEq

/-- `re.match(r'https://github\.com/([^/]+)/([^/]+)', url)`
(extract_github_info, line 57).  Both groups are maximal non-empty runs of
non-slash characters; the pattern is unanchored at the right, so trailing
text after the second group is ignored. -/
def matchHttpsPattern (repo_url : Str) : Option (Str × Str) :=
  let pre := "https://github.com/".data
  if pre.isPrefixOf repo_url then
    let rest := repo_url.drop pre.length
    let owner := rest.takeWhile (fun c => c ≠ '/')
    if owner.isEmpty then none
    else
      match rest.dropWhile (fun c => c ≠ '/') with
      | '/' :: rest2 =>
        let repo := rest2.takeWhile (fun c => c ≠ '/')
        if repo.isEmpty then none else some (owner, repo)
      | _ => none
  else none

/-- Greedy search for the split point of `([^/]+)\.git`: the largest `k`
such that the first `k` characters are a non-empty slash-free group
(`k ≤ plen`) and the literal `.git` follows. -/
def findGitSuffix (rest2 : Str) (plen : Nat) : Nat → Option Nat
  | 0 => none
  | k + 1 =>
    if k + 1 ≤ plen ∧ ".git".data.isPrefixOf (rest2.drop (k + 1)) then
      some (k + 1)
    else findGitSuffix rest2 plen k

/-- `re.match(r'git@github\.com:([^/]+)/([^/]+)\.git', url)`
(extract_github_info, line 58). -/
def matchSshPattern (repo_url : Str) : Option (Str × Str) :=
  let pre := "git@github.com:".data
  if pre.isPrefixOf repo_url then
    let rest := repo_url.drop pre.length
    let owner := rest.takeWhile (fun c => c ≠ '/')
    if owner.isEmpty then none
    else
      match rest.dropWhile (fun c => c ≠ '/') with
      | '/' :: rest2 =>
        let p := rest2.takeWhile (fun c => c ≠ '/')
        match findGitSuffix rest2 p.length rest2.length with
        | some k => some (owner, rest2.take k)
        | none => none
      | _ => none
  else none

/-- `extract_github_info` (package_analyzer.py lines 55-66): try the HTTPS
pattern, then the SSH pattern, else raise `ValueError`. -/
def extract_github_info (repo_url : Str) : Except PyErr (Str × Str) :=
  match matchHttpsPattern repo_url with
  | some ownerRepo => .ok ownerRepo
  | none =>
    match matchSshPattern repo_url with
    | some ownerRepo => .ok ownerRepo
    | none => .error .valueError

/-- The outcome of one HTTP GET, as seen by `get_cargo_toml_content`:
a JSON payload (whose decoded `content` field may be absent), an
`HTTPError` with a status code, or a `URLError`. -/
inductive FetchResponse where
  | payload : Option Str → FetchResponse
  | httpError : Nat → FetchResponse
  | networkError : FetchResponse
deriving DecidableEq

/-- The URL built at line 69:
`https://api.github.com/repos/{owner}/{repo}/contents/Cargo.toml?ref={version}`.
It depends on the owner, the repo and the version only. -/
def buildContentUrl (owner repo version : Str) : Str :=
  "https://api.github.com/repos/".data ++ owner ++ "/".data ++ repo
    ++ "/contents/Cargo.toml?ref=".data ++ version

/-- `get_cargo_toml_content` (lines 68-90): a missing `content` field and a
404 raise `ValueError`; any other HTTP status and any network error raise
`RuntimeError`. -/
def get_cargo_toml_content (http : Str → FetchResponse)
    (owner repo version : Str) : Except PyErr Str :=
  match http (buildContentUrl owner repo version) with
  | .payload (some content) => .ok content
  | .payload none => .error .valueError
  | .httpError code =>
    if code = 404 then .error .valueError else .error .runtimeError
  | .networkError => .error .runtimeError

/-- The body of the `try:` block of `build_dependency_graph_bfs`
(lines 149-152): resolve the repository identity from the configured
`repo_url`, fetch the manifest at the current version, parse it.
`current_package` is in scope in the source but is used only in the error
message of the `except` arm; it is kept as a parameter to state that the
result does not depend on it. -/
def expand_package (repo_url : Str) (http : Str → FetchResponse)
    (current_package current_version : Str) :
    Except PyErr (List (Str × Str)) :=
  match extract_github_info repo_url with
  | .error e => .error e
  | .ok (owner, repo) =>
    match get_cargo_toml_content http owner repo current_version with
    | .error e => .error e
    | .ok cargo_content => .ok (parse_dependencies cargo_content)

/-- The loop state of `build_dependency_graph_bfs`: FIFO frontier of
(package, version) pairs, visit set, graph, and the packages for which the
dequeue-time cycle message (line 139) was printed. -/
structure RemoteBfsState where
  queue : List (Str × Str)
  visited : List Str
  graph : List (Str × List (Str × Str))
  cycles : List Str
deriving DecidableEq

/-- The `while queue:` loop of `build_dependency_graph_bfs`
(lines 135-164), with explicit fuel.  On any exception from the `try:`
block the package is recorded with an empty record; otherwise its parsed
record is stored and its not-yet-visited dependencies are enqueued at the
parent's version. -/
def build_dependency_graph_bfs_aux (repo_url : Str)
    (http : Str → FetchResponse) (filt : Str) :
    Nat → RemoteBfsState → RemoteBfsState
  | 0, s => s
  | fuel + 1, s =>
    match s.queue with
    | [] => s
    | (current_package, current_version) :: rest =>
      if current_package ∈ s.visited then
        build_dependency_graph_bfs_aux repo_url http filt fuel
          ⟨rest, s.visited, s.graph, s.cycles ++ [current_package]⟩
      else
        if shouldSkip current_package filt = true then
          build_dependency_graph_bfs_aux repo_url http filt fuel
            ⟨rest, current_package :: s.visited, s.graph, s.cycles⟩
        else
          match expand_package repo_url http current_package current_version with
          | .error _ =>
            build_dependency_graph_bfs_aux repo_url http filt fuel
              ⟨rest, current_package :: s.visited,
                dictInsert s.graph current_package [], s.cycles⟩
          | .ok dependencies =>
            build_dependency_graph_bfs_aux repo_url http filt fuel
              ⟨rest ++ (dependencies.filter
                    (fun d => decide (¬ d.fst ∈ current_package :: s.visited))).map
                  (fun d => (d.fst, current_version)),
                current_package :: s.visited,
                dictInsert s.graph current_package dependencies, s.cycles⟩

/-- `build_dependency_graph_bfs` (lines 128-165) seeded with the start
(package, version) pair. -/
def build_dependency_graph_bfs (repo_url : Str) (http : Str → FetchResponse)
    (filt : Str) (start_package start_version : Str) (fuel : Nat) :
    List (Str × List (Str × Str)) :=
  (build_dependency_graph_bfs_aux repo_url http filt fuel
    ⟨[(start_package, start_version)], [], [], []⟩).graph

/-! ### The graph report -/

/-- The three-way structural classification printed at lines 241-248. -/
inductive GraphClass where
  | noEdges : GraphClass
  | singleNode : GraphClass
  | transitive : GraphClass
deriving DecidableEq

/-- The pure content of `print_graph_info`'s output. -/
structure GraphInfo where
  total_packages : Nat
  total_dependencies : Nat
  classification : GraphClass
  listing : List (Str × List Str)

/-- `print_graph_info` (lines 220-248) as a pure summary:
`len(graph)`, `sum(len(deps) ...)`, the adjacency listing from
`sorted(graph.items())` with `sorted(dependencies.keys())` per node
(Python's `sorted` on items with pairwise-distinct keys orders by key; the
order on strings is code-point lexicographic, i.e. the order on
`List Char`), and the `any`-based three-way classification. -/
def print_graph_info (graph : List (Str × List (Str × Str))) : GraphInfo :=
  let total_packages := graph.length
  let total_dependencies := (graph.map (fun e => e.snd.length)).sum
  let has_dependencies := graph.any (fun e => !e.snd.isEmpty)
  { total_packages := total_packages
    total_dependencies := total_dependencies
    classification :=
      if has_dependencies = false then .noEdges
      else if total_packages = 1 then .singleNode
      else .transitive
    listing :=
      (List.insertionSort (fun a b : Str × List (Str × Str) => a.fst ≤ b.fst)
          graph).map
        (fun e => (e.fst, List.insertionSort (fun a b : Str => a ≤ b)
          (e.snd.map Prod.fst))) }

/-! ### Termination measures for the two BFS loops -/

/-- Worklist measure for the test-mode BFS over a finite universe `U`:
the frontier length plus, for every not-yet-visited universe member, one
dequeue plus its fan-out. -/
def testMeasure (tg : List (Str × List Str)) (U : List Str)
    (queue : List Str) (visited : List Str) : Nat :=
  queue.length +
    ((U.filter (fun v => decide (¬ v ∈ visited))).map
      (fun v => 1 + (tgGet tg v).length)).sum

/-- The (package-independent, cf. C9) record used to expand every node at
version `ver`; empty when fetching fails. -/
def remoteDeps (repo_url : Str) (http : Str → FetchResponse) (ver : Str) :
    List (Str × Str) :=
  match expand_package repo_url http [] ver with
  | .ok dependencies => dependencies
  | .error _ => []

/-- Worklist measure for the remote-mode BFS, with the constant fan-out of
the single record fetched at version `ver`. -/
def remoteMeasure (repo_url : Str) (http : Str → FetchResponse) (ver : Str)
    (U : List Str) (queue : List (Str × Str)) (visited : List Str) : Nat :=
  queue.length +
    ((U.filter (fun v => decide (¬ v ∈ visited))).map
      (fun _ => 1 + (remoteDeps repo_url http ver).length)).sum

/-! ### Lemmas about ASCII lowercasing -/

theorem charOfNat_toNat_small (n : Nat) (h : n ≤ 1000) :
    (Char.ofNat n).toNat = n := by
  have hv : n.isValidChar := Or.inl (by omega)
  simp only [Char.ofNat, dif_pos hv, Char.ofNatAux, Char.toNat]
  simp [UInt32.toNat, UInt32.ofNat]

theorem charToLower_idem (c : Char) :
    Char.toLower (Char.toLower c) = Char.toLower c := by
  unfold Char.toLower
  by_cases h : c.toNat ≥ 65 ∧ c.toNat ≤ 90
  · rw [if_pos h]
    have hn : (Char.ofNat (c.toNat + 32)).toNat = c.toNat + 32 :=
      charOfNat_toNat_small _ (by omega)
    rw [if_neg (by omega)]
  · rw [if_neg h, if_neg h]

theorem lowerStr_idem (s : Str) : lowerStr (lowerStr s) = lowerStr s := by
  induction s with
  | nil => rfl
  | cons c cs ih =>
    simp only [lowerStr, List.map_cons] at ih ⊢
    rw [charToLower_idem]
    rw [show (cs.map Char.toLower).map Char.toLower = cs.map Char.toLower from ih]

theorem lowerStr_isEmpty (s : Str) : (lowerStr s).isEmpty = s.isEmpty := by
  cases s <;> rfl

/-- C4: the filter test is a case-insensitive substring containment check:
an empty filter substring never causes a skip, and the skip decision is
unchanged by lowercasing either the package name or the filter; in
particular the decision for ("Serde", "SER") equals the one for
("serde", "ser"). -/
theorem shouldSkip_case_insensitive (name filt : Str) :
    shouldSkip name [] = false
    ∧ shouldSkip (lowerStr name) filt = shouldSkip name filt
    ∧ shouldSkip name (lowerStr filt) = shouldSkip name filt
    ∧ shouldSkip "Serde".data "SER".data = shouldSkip "serde".data "ser".data := by
  refine ⟨rfl, ?_, ?_, by decide⟩
  · unfold shouldSkip
    rw [lowerStr_idem]
  · unfold shouldSkip
    rw [lowerStr_idem, lowerStr_isEmpty]

/-! ### Lenient parsing: the scan never fails and collects nothing without
a section header -/

theorem parseDepsLines_no_header (lines : List Str) (deps : List (Str × Str))
    (h : ∀ l ∈ lines, pyStrip l ≠ "[dependencies]".data) :
    parseDepsLines lines false deps = deps := by
  induction lines with
  | nil => rfl
  | cons l rest ih =>
    have hl : pyStrip l ≠ "[dependencies]".data := h l (List.mem_cons_self _ _)
    have hr : ∀ x ∈ rest, pyStrip x ≠ "[dependencies]".data :=
      fun x hx => h x (List.mem_cons_of_mem _ hx)
    simp only [parseDepsLines]
    by_cases h1 : pyStrip l = [] ∨ (pyStrip l).head? = some '#'
    · rw [if_pos h1]; exact ih hr
    · rw [if_neg h1, if_neg hl, if_neg (by simp), if_neg (by simp)]
      exact ih hr

/-- C6: `parse_dependencies` is a total function (the embedding is a plain
structural recursion over the split lines, so it terminates and raises
nothing on any input string), and on malformed text with no recognizable
`[dependencies]` section line it returns the empty record. -/
theorem parse_dependencies_malformed_empty (content : Str)
    (h : ∀ l ∈ splitLines content, pyStrip l ≠ "[dependencies]".data) :
    parse_dependencies content = [] :=
  parseDepsLines_no_header _ _ h

theorem parse_dependencies_malformed_empty_witness :
    (∀ l ∈ splitLines "not a manifest\n### junk\nserde = \"1.0\"".data,
        pyStrip l ≠ "[dependencies]".data)
    ∧ parse_dependencies "not a manifest\n### junk\nserde = \"1.0\"".data = [] :=
  ⟨by decide, parse_dependencies_malformed_empty _ (by decide)⟩

/-- C5 counterexample: with an intervening `[package]` section, entries of a
second `[dependencies]` section are NOT collected (the claim asserts `b`
would still be collected; the scan in fact stops at `[package]`). -/
theorem second_dependencies_section_dropped :
    parse_dependencies
        "[dependencies]\na = \"1\"\n[package]\n[dependencies]\nb = \"2\"".data
      = [("a".data, "1".data)] := by decide

/-- C5 amended: the in-section flag is set on seeing the `[dependencies]`
header, but on seeing any other section header while the flag is set the
whole scan is aborted (the loop breaks), not merely the section exited;
consequently `NAME = VALUE` lines under a second `[dependencies]` header
that occurs after an intervening section are never collected. -/
theorem section_header_aborts_scan (l : Str) (rest : List Str)
    (deps : List (Str × Str))
    (h1 : (pyStrip l).head? = some '[')
    (h2 : pyStrip l ≠ "[dependencies]".data) :
    parseDepsLines (l :: rest) true deps = deps := by
  simp only [parseDepsLines]
  have hne : ¬(pyStrip l = [] ∨ (pyStrip l).head? = some '#') := by
    rintro (h | h)
    · rw [h] at h1; exact absurd h1 (by decide)
    · rw [h1] at h; exact absurd h (by decide)
  rw [if_neg hne, if_neg h2, if_pos (by simp [h1])]

theorem section_header_aborts_scan_witness :
    parseDepsLines ["[package]".data, "b = \"2\"".data] true
        [("a".data, "1".data)]
      = [("a".data, "1".data)] :=
  section_header_aborts_scan _ _ _ (by decide) (by decide)

/-! ### Dependency names containing non-word characters are ignored -/

theorem dropWhile_head_false {p : Char → Bool} {l t : Str} {x : Char}
    (h : l.dropWhile p = x :: t) : p x = false := by
  induction l with
  | nil => simp at h
  | cons a as ih =>
    rw [List.dropWhile_cons] at h
    by_cases ha : p a = true
    · exact ih (by rwa [if_pos ha] at h)
    · rw [if_neg ha] at h
      cases h
      exact Bool.eq_false_iff.mpr ha

theorem dropTrailing_append (p : Char → Bool) (A B : Str) (x : Char)
    (hx : A.getLast? = some x) (hpx : p x = false) :
    dropTrailing p (A ++ B) = A ++ dropTrailing p B := by
  unfold dropTrailing
  rw [List.reverse_append, List.dropWhile_append]
  have hA : A.reverse.dropWhile p = A.reverse := by
    have hh : A.reverse.head? = some x := by rw [List.head?_reverse]; exact hx
    cases hAr : A.reverse with
    | nil => rfl
    | cons y ys =>
      rw [hAr] at hh
      cases hh
      rw [List.dropWhile_cons, if_neg (by rw [hpx]; exact Bool.false_ne_true)]
  by_cases hB : (B.reverse.dropWhile p).isEmpty = true
  · rw [if_pos hB, hA, List.reverse_reverse]
    rw [List.isEmpty_iff] at hB
    rw [hB]
    simp
  · rw [if_neg hB, List.reverse_append, List.reverse_reverse]

theorem dropWhile_append_of_ne_nil {p : Char → Bool} {A : Str} (B : Str)
    {d : Char} {t : Str} (h : A.dropWhile p = d :: t) :
    (A ++ B).dropWhile p = d :: (t ++ B) := by
  rw [List.dropWhile_append, h]
  simp

theorem matchDepLine_eq_none {line : Str} {d : Char} {t : Str}
    (h : (line.dropWhile isWordChar).dropWhile isSpaceChar = d :: t)
    (hd : d ≠ '=') : matchDepLine line = none := by
  unfold matchDepLine
  by_cases hni : (line.takeWhile isWordChar).isEmpty = true
  · rw [if_pos hni]
  · rw [if_neg hni, h]
    split
    · next heq =>
      exfalso
      cases heq
      exact hd rfl
    · rfl

/-- Inside the dependencies section, a line that is not blank, not a comment,
not a section header and does not match the dependency regex is a no-op. -/
theorem parseDepsLines_skip_line (l : Str) (rest : List Str)
    (deps : List (Str × Str))
    (h1 : pyStrip l ≠ []) (h2 : (pyStrip l).head? ≠ some '#')
    (h3 : pyStrip l ≠ "[dependencies]".data)
    (h4 : (pyStrip l).head? ≠ some '[')
    (h5 : matchDepLine (pyStrip l) = none) :
    parseDepsLines (l :: rest) true deps = parseDepsLines rest true deps := by
  simp only [parseDepsLines]
  rw [if_neg (by rintro (h0 | h0); exacts [h1 h0, h2 h0]), if_neg h3,
    if_neg (by rintro ⟨h0, _⟩; exact h4 h0), if_pos (by trivial), h5]

/-- C10: inside the dependencies section, a `NAME = VALUE` line whose NAME
contains a character outside the word class (e.g. a hyphen, as in
`serde-json = "1.0"`) is silently ignored by the scan: it contributes no
entry to the record being built, and the scan simply proceeds with the
remaining lines.  The hypotheses pin the shape: `name` starts with a
non-space character other than `[` and `#`, and its maximal leading run of
word characters is followed by a character `d` that is neither whitespace
nor `=` (`d` fails `isWordChar` by construction of `dropWhile`). -/
theorem nonword_dep_name_ignored (name value : Str) (rest : List Str)
    (deps : List (Str × Str)) (c0 d : Char) (nt tl : Str)
    (hhead : name = c0 :: nt)
    (hc0s : isSpaceChar c0 = false) (hc0b : c0 ≠ '[') (hc0h : c0 ≠ '#')
    (hdw : name.dropWhile isWordChar = d :: tl)
    (hds : isSpaceChar d = false) (hde : d ≠ '=') :
    parseDepsLines ((name ++ " = ".data ++ value) :: rest) true deps
      = parseDepsLines rest true deps := by
  have hsplit : name ++ " = ".data ++ value
      = (name ++ [' ', '=']) ++ (' ' :: value) := by
    simp
  have hstrip : pyStrip (name ++ " = ".data ++ value)
      = (name ++ [' ', '=']) ++ dropTrailing isSpaceChar (' ' :: value) := by
    rw [hsplit]
    unfold pyStrip
    have hdwl : ((name ++ [' ', '=']) ++ (' ' :: value)).dropWhile isSpaceChar
        = (name ++ [' ', '=']) ++ (' ' :: value) := by
      rw [hhead]
      show List.dropWhile isSpaceChar (c0 :: (nt ++ [' ', '='] ++ (' ' :: value)))
        = _
      rw [List.dropWhile_cons,
        if_neg (by rw [hc0s]; exact Bool.false_ne_true)]
      simp
    rw [hdwl]
    exact dropTrailing_append _ _ _ '='
      (by rw [List.getLast?_append]; rfl) rfl
  set S := pyStrip (name ++ " = ".data ++ value) with hS
  have hShead : S.head? = some c0 := by
    rw [hstrip, hhead]
    rfl
  have hSne : S ≠ [] := by
    intro h0
    rw [h0] at hShead
    exact absurd hShead (by simp)
  have hSnh : S.head? ≠ some '#' := by
    rw [hShead]
    intro h0
    cases h0
    exact hc0h rfl
  have hSheader : S ≠ "[dependencies]".data := by
    intro h0
    rw [h0] at hShead
    cases hShead
    exact hc0b rfl
  have hSnb : ¬ S.head? = some '[' := by
    rw [hShead]
    intro h0
    cases h0
    exact hc0b rfl
  have hmatch : matchDepLine S = none := by
    have h1 : S.dropWhile isWordChar
        = d :: (tl ++ ([' ', '='] ++ dropTrailing isSpaceChar (' ' :: value))) := by
      rw [hstrip, List.append_assoc]
      exact dropWhile_append_of_ne_nil _ hdw
    have h2 : (S.dropWhile isWordChar).dropWhile isSpaceChar
        = d :: (tl ++ ([' ', '='] ++ dropTrailing isSpaceChar (' ' :: value))) := by
      rw [h1, List.dropWhile_cons, if_neg (by rw [hds]; exact Bool.false_ne_true)]
    exact matchDepLine_eq_none h2 hde
  exact parseDepsLines_skip_line _ _ _ hSne hSnh hSheader hSnb hmatch

theorem nonword_dep_name_ignored_witness :
    parseDepsLines
        [("serde-json".data ++ " = ".data ++ "\"1.0\"".data),
          "tokio = \"1\"".data] true []
      = parseDepsLines ["tokio = \"1\"".data] true [] :=
  nonword_dep_name_ignored "serde-json".data "\"1.0\"".data
    ["tokio = \"1\"".data] [] 's' '-' "erde-json".data "json".data
    (by decide) (by decide) (by decide) (by decide) (by decide) (by decide)
    (by decide)

/-! ### Scenario 1: the fixture cycle run -/

/-- C1 counterexample: on the fixture `root a,b` / `a` / `b a` rooted at
`root` with an empty filter, the cycle bookkeeping of the test BFS stays
empty — no cycle observation is recorded when `a` is reached again via `b`,
contradicting the claim.  (The dequeue-time cycle message can only fire for
a package enqueued twice before its first processing; here `a` is already
in the visit set when `b`'s dependencies are examined, so it is simply not
re-enqueued.) -/
theorem scenario1_no_cycle_recorded :
    (build_test_graph_bfs_aux [] (read_test_graph "root a,b\na \nb a".data) 10
        ⟨["root".data], [], [], []⟩).cycles = [] := by decide

/-- C1 amended: the fixture run builds exactly the claimed graph
{root: {a, b}, a: {}, b: {a}} with every package visited once and the
frontier drained, and `a`'s second encounter via `b` neither re-enqueues
nor re-processes it; but no cycle observation is recorded, because the
enqueue-time visited check suppresses the re-enqueue before the
dequeue-time cycle branch could see it. -/
theorem scenario1_graph_built_without_cycle_observation :
    build_test_graph_bfs [] (read_test_graph "root a,b\na \nb a".data)
        "root".data 10
      = [("root".data,
            [("a".data, "test-version".data), ("b".data, "test-version".data)]),
          ("a".data, []),
          ("b".data, [("a".data, "test-version".data)])]
    ∧ build_test_graph_bfs_aux [] (read_test_graph "root a,b\na \nb a".data) 10
        ⟨["root".data], [], [], []⟩
      = ⟨[], ["b".data, "a".data, "root".data],
          [("root".data,
              [("a".data, "test-version".data), ("b".data, "test-version".data)]),
            ("a".data, []),
            ("b".data, [("a".data, "test-version".data)])],
          []⟩ := ⟨by decide, by decide⟩

/-! ### Error handling in remote traversal -/

theorem expand_package_eq_map (repo_url : Str) (http : Str → FetchResponse)
    (pkg ver o r : Str)
    (hext : extract_github_info repo_url = .ok (o, r)) :
    expand_package repo_url http pkg ver
      = (get_cargo_toml_content http o r ver).map parse_dependencies := by
  unfold expand_package
  rw [hext]
  show (match get_cargo_toml_content http o r ver with
      | .error e => Except.error e
      | .ok cargo_content => .ok (parse_dependencies cargo_content))
    = (get_cargo_toml_content http o r ver).map parse_dependencies
  cases get_cargo_toml_content http o r ver <;> rfl

theorem get_cargo_toml_content_httpError (http : Str → FetchResponse)
    (o r ver : Str) (c : Nat)
    (hc : http (buildContentUrl o r ver) = .httpError c) :
    get_cargo_toml_content http o r ver
      = if c = 404 then .error .valueError else .error .runtimeError := by
  unfold get_cargo_toml_content
  rw [hc]

theorem get_cargo_toml_content_networkError (http : Str → FetchResponse)
    (o r ver : Str)
    (hc : http (buildContentUrl o r ver) = .networkError) :
    get_cargo_toml_content http o r ver = .error .runtimeError := by
  unfold get_cargo_toml_content
  rw [hc]

theorem get_cargo_toml_content_missing (http : Str → FetchResponse)
    (o r ver : Str)
    (hc : http (buildContentUrl o r ver) = .payload none) :
    get_cargo_toml_content http o r ver = .error .valueError := by
  unfold get_cargo_toml_content
  rw [hc]

/-- C2: in remote mode, every failure of the per-node fetch pipeline is
absorbed: (1) whenever `expand_package` fails with any exception, the
dequeued package is recorded with an empty dependency record and the loop
continues on the remaining frontier; (2) a bad repo-URL shape propagates as
that exception from `expand_package`; (3) under a resolvable URL, an HTTP
error of any status (404 included), a network error, or a missing
`content` field each make `expand_package` fail with some exception. -/
theorem fetch_errors_degrade_gracefully :
    (∀ (repo_url : Str) (http : Str → FetchResponse) (filt : Str)
        (fuel : Nat) (pkg ver : Str) (rest : List (Str × Str))
        (visited : List Str) (graph : List (Str × List (Str × Str)))
        (cycles : List Str) (e : PyErr),
      ¬ pkg ∈ visited → shouldSkip pkg filt = false →
      expand_package repo_url http pkg ver = .error e →
      build_dependency_graph_bfs_aux repo_url http filt (fuel + 1)
          ⟨(pkg, ver) :: rest, visited, graph, cycles⟩
        = build_dependency_graph_bfs_aux repo_url http filt fuel
          ⟨rest, pkg :: visited, dictInsert graph pkg [], cycles⟩)
    ∧ (∀ (repo_url : Str) (http : Str → FetchResponse) (pkg ver : Str)
        (e : PyErr),
      extract_github_info repo_url = .error e →
      expand_package repo_url http pkg ver = .error e)
    ∧ (∀ (repo_url : Str) (http : Str → FetchResponse) (o r pkg ver : Str),
      extract_github_info repo_url = .ok (o, r) →
      ((∃ c, http (buildContentUrl o r ver) = .httpError c)
        ∨ http (buildContentUrl o r ver) = .networkError
        ∨ http (buildContentUrl o r ver) = .payload none) →
      ∃ e, expand_package repo_url http pkg ver = .error e) := by
  refine ⟨?_, ?_, ?_⟩
  · intro repo_url http filt fuel pkg ver rest visited graph cycles e
      hv hs hexp
    simp only [build_dependency_graph_bfs_aux]
    rw [if_neg hv, if_neg (by rw [hs]; exact Bool.false_ne_true), hexp]
  · intro repo_url http pkg ver e hext
    unfold expand_package
    rw [hext]
  · intro repo_url http o r pkg ver hext hfail
    rw [expand_package_eq_map repo_url http pkg ver o r hext]
    rcases hfail with ⟨c, hc⟩ | hc | hc
    · rw [get_cargo_toml_content_httpError http o r ver c hc]
      by_cases h4 : c = 404
      · rw [if_pos h4]; exact ⟨.valueError, rfl⟩
      · rw [if_neg h4]; exact ⟨.runtimeError, rfl⟩
    · rw [get_cargo_toml_content_networkError http o r ver hc]
      exact ⟨.runtimeError, rfl⟩
    · rw [get_cargo_toml_content_missing http o r ver hc]
      exact ⟨.valueError, rfl⟩

theorem fetch_errors_degrade_gracefully_witness :
    (build_dependency_graph_bfs_aux "https://github.com/o/r".data
          (fun _ => FetchResponse.httpError 404) [] 1
          ⟨[("x".data, "1".data)], [], [], []⟩
        = build_dependency_graph_bfs_aux "https://github.com/o/r".data
          (fun _ => FetchResponse.httpError 404) [] 0
          ⟨[], ["x".data], [("x".data, [])], []⟩)
    ∧ expand_package "bad-url".data (fun _ => FetchResponse.networkError)
        "x".data "1".data = .error .valueError
    ∧ ∃ e, expand_package "https://github.com/o/r".data
        (fun _ => FetchResponse.networkError) "x".data "1".data
        = .error e := by
  refine ⟨?_, ?_, ?_⟩
  · exact fetch_errors_degrade_gracefully.1 _ _ _ _ _ _ _ _ _ _ .valueError
      (by decide) (by decide) rfl
  · exact fetch_errors_degrade_gracefully.2.1 _ _ _ _ .valueError rfl
  · exact fetch_errors_degrade_gracefully.2.2 _ _ "o".data "r".data _ _
      rfl (Or.inr (Or.inl rfl))

/-- C9: the fetch identity is derived from the configured `repo_url` alone
and is independent of the dequeued package name: (1) for any two package
names at the same version the expansion result (URL requested, manifest
fetched, record parsed) is identical; (2) under a resolved (owner, repo)
the record is the parse of the content fetched at
`buildContentUrl owner repo version`, an identity in which the package
name does not occur. -/
theorem fetch_identity_independent_of_package :
    (∀ (repo_url : Str) (http : Str → FetchResponse) (p q ver : Str),
      expand_package repo_url http p ver = expand_package repo_url http q ver)
    ∧ (∀ (repo_url : Str) (http : Str → FetchResponse) (pkg ver o r : Str),
      extract_github_info repo_url = .ok (o, r) →
      expand_package repo_url http pkg ver
        = (get_cargo_toml_content http o r ver).map parse_dependencies) := by
  constructor
  · intro repo_url http p q ver
    rfl
  · intro repo_url http pkg ver o r hext
    exact expand_package_eq_map repo_url http pkg ver o r hext

theorem fetch_identity_independent_of_package_witness :
    expand_package "https://github.com/o/r".data
        (fun _ => FetchResponse.payload (some "[dependencies]\nserde = \"1.0\"".data))
        "anything".data "1".data
      = (get_cargo_toml_content
            (fun _ => FetchResponse.payload (some "[dependencies]\nserde = \"1.0\"".data))
            "o".data "r".data "1".data).map parse_dependencies :=
  fetch_identity_independent_of_package.2 _ _ _ _ "o".data "r".data rfl

/-! ### Filtered packages: visited, never expanded, never graph keys -/

theorem dictInsert_keys_subset {α : Type} (g : List (Str × α)) (k : Str)
    (v : α) :
    ∀ x ∈ (dictInsert g k v).map Prod.fst, x ∈ g.map Prod.fst ∨ x = k := by
  induction g with
  | nil =>
    intro x hx
    rw [dictInsert, List.map_cons, List.mem_cons] at hx
    rcases hx with h | h
    · exact Or.inr h
    · exact absurd h (List.not_mem_nil x)
  | cons e rest ih =>
    intro x hx
    obtain ⟨k0, v0⟩ := e
    rw [dictInsert] at hx
    by_cases hk : k0 = k
    · rw [if_pos hk, List.map_cons, List.mem_cons] at hx
      rcases hx with h | h
      · exact Or.inr (by rw [h, hk])
      · exact Or.inl (by rw [List.map_cons]; exact List.mem_cons_of_mem _ h)
    · rw [if_neg hk, List.map_cons, List.mem_cons] at hx
      rcases hx with h | h
      · exact Or.inl (by rw [List.map_cons, h]; exact List.mem_cons_self _ _)
      · rcases ih x h with h1 | h1
        · exact Or.inl
            (by rw [List.map_cons]; exact List.mem_cons_of_mem _ h1)
        · exact Or.inr h1

theorem mem_keys_dictInsert {α : Type} (g : List (Str × α)) (k : Str) (v : α)
    (x : Str) (hx : x ∈ g.map Prod.fst) :
    x ∈ (dictInsert g k v).map Prod.fst := by
  induction g with
  | nil => exact absurd hx (List.not_mem_nil x)
  | cons e rest ih =>
    obtain ⟨k0, v0⟩ := e
    rw [List.map_cons, List.mem_cons] at hx
    rw [dictInsert]
    by_cases hk : k0 = k
    · rw [if_pos hk, List.map_cons]
      rcases hx with h | h
      · rw [h]; exact List.mem_cons_self _ _
      · exact List.mem_cons_of_mem _ h
    · rw [if_neg hk, List.map_cons]
      rcases hx with h | h
      · rw [h]; exact List.mem_cons_self _ _
      · exact List.mem_cons_of_mem _ (ih h)

theorem mem_keys_dictInsert_self {α : Type} (g : List (Str × α)) (k : Str)
    (v : α) : k ∈ (dictInsert g k v).map Prod.fst := by
  induction g with
  | nil =>
    rw [dictInsert, List.map_cons]
    exact List.mem_cons_self _ _
  | cons e rest ih =>
    obtain ⟨k0, v0⟩ := e
    rw [dictInsert]
    by_cases hk : k0 = k
    · rw [if_pos hk, List.map_cons, hk]
      exact List.mem_cons_self _ _
    · rw [if_neg hk, List.map_cons]
      exact List.mem_cons_of_mem _ ih

theorem foldl_dictInsert_mem {α : Type} (v : α) (deps : List Str) :
    ∀ (acc : List (Str × α)) (d : Str),
      d ∈ deps ∨ d ∈ acc.map Prod.fst →
      d ∈ (deps.foldl (fun a dep => dictInsert a dep v) acc).map Prod.fst := by
  induction deps with
  | nil =>
    intro acc d hd
    rcases hd with h | h
    · simp at h
    · exact h
  | cons x xs ih =>
    intro acc d hd
    simp only [List.foldl_cons]
    rcases hd with h | h
    · rcases List.mem_cons.mp h with h1 | h1
      · exact ih _ _ (Or.inr (h1 ▸ mem_keys_dictInsert_self acc x v))
      · exact ih _ _ (Or.inl h1)
    · exact ih _ _ (Or.inr (mem_keys_dictInsert acc x v d h))

theorem test_record_mem_keys (deps : List Str) (d : Str) (hd : d ∈ deps) :
    d ∈ (test_record deps).map Prod.fst :=
  foldl_dictInsert_mem _ deps [] d (Or.inl hd)

theorem test_bfs_graph_keys_not_skipped (filt : Str)
    (tg : List (Str × List Str)) :
    ∀ (fuel : Nat) (s : TestBfsState),
      (∀ k ∈ s.graph.map Prod.fst, shouldSkip k filt = false) →
      ∀ k ∈ ((build_test_graph_bfs_aux filt tg fuel s).graph).map Prod.fst,
        shouldSkip k filt = false := by
  intro fuel
  induction fuel with
  | zero => intro s h; exact h
  | succ n ih =>
    intro s h
    obtain ⟨queue, visited, graph, cycles⟩ := s
    cases queue with
    | nil => exact h
    | cons pkg rest =>
      simp only [build_test_graph_bfs_aux]
      by_cases hv : pkg ∈ visited
      · rw [if_pos hv]
        exact ih _ h
      · rw [if_neg hv]
        by_cases hs : shouldSkip pkg filt = true
        · rw [if_pos hs]
          exact ih _ h
        · rw [if_neg hs]
          refine ih _ ?_
          intro k hk
          rcases dictInsert_keys_subset graph pkg
              (test_record (tgGet tg pkg)) k hk with h1 | h1
          · exact h k h1
          · rw [h1]
            exact Bool.eq_false_iff.mpr hs

theorem remote_bfs_graph_keys_not_skipped (repo_url : Str)
    (http : Str → FetchResponse) (filt : Str) :
    ∀ (fuel : Nat) (s : RemoteBfsState),
      (∀ k ∈ s.graph.map Prod.fst, shouldSkip k filt = false) →
      ∀ k ∈ ((build_dependency_graph_bfs_aux repo_url http filt fuel
          s).graph).map Prod.fst,
        shouldSkip k filt = false := by
  intro fuel
  induction fuel with
  | zero => intro s h; exact h
  | succ n ih =>
    intro s h
    obtain ⟨queue, visited, graph, cycles⟩ := s
    cases queue with
    | nil => exact h
    | cons hd rest =>
      obtain ⟨pkg, ver⟩ := hd
      simp only [build_dependency_graph_bfs_aux]
      by_cases hv : pkg ∈ visited
      · rw [if_pos hv]
        exact ih _ h
      · rw [if_neg hv]
        by_cases hs : shouldSkip pkg filt = true
        · rw [if_pos hs]
          exact ih _ h
        · rw [if_neg hs]
          cases hexp : expand_package repo_url http pkg ver with
          | error e =>
            refine ih _ ?_
            intro k hk
            rcases dictInsert_keys_subset graph pkg [] k hk with h1 | h1
            · exact h k h1
            · rw [h1]
              exact Bool.eq_false_iff.mpr hs
          | ok dependencies =>
            refine ih _ ?_
            intro k hk
            rcases dictInsert_keys_subset graph pkg dependencies k hk
                with h1 | h1
            · exact h k h1
            · rw [h1]
              exact Bool.eq_false_iff.mpr hs

/-- C3: in both traversals a package matched by the filter substring is
added to the VisitSet when dequeued but never becomes a key of the graph,
while any parent's stored record keeps every declared dependency (filtered
ones included).  The six parts are: (1) test-mode skip step: a dequeued
filtered package is added to the visit set, and neither the graph nor the
frontier gains anything from it; (2) test-mode invariant: the built graph
never acquires a filter-matching key; (3) test-mode expand step: a
non-filtered package stores the full fixture record, whose key set
contains every declared dependency; (4)-(6) the same three statements for
the remote traversal, where the stored record is the parsed manifest
verbatim. -/
theorem filtered_packages_visited_not_keyed :
    (∀ (filt : Str) (tg : List (Str × List Str)) (fuel : Nat) (pkg : Str)
        (rest : List Str) (visited : List Str)
        (graph : List (Str × List (Str × Str))) (cycles : List Str),
      ¬ pkg ∈ visited → shouldSkip pkg filt = true →
      build_test_graph_bfs_aux filt tg (fuel + 1)
          ⟨pkg :: rest, visited, graph, cycles⟩
        = build_test_graph_bfs_aux filt tg fuel
          ⟨rest, pkg :: visited, graph, cycles⟩)
    ∧ (∀ (filt : Str) (tg : List (Str × List Str)) (fuel : Nat)
        (s : TestBfsState),
      (∀ k ∈ s.graph.map Prod.fst, shouldSkip k filt = false) →
      ∀ k ∈ ((build_test_graph_bfs_aux filt tg fuel s).graph).map Prod.fst,
        shouldSkip k filt = false)
    ∧ (∀ (filt : Str) (tg : List (Str × List Str)) (fuel : Nat) (pkg : Str)
        (rest : List Str) (visited : List Str)
        (graph : List (Str × List (Str × Str))) (cycles : List Str),
      ¬ pkg ∈ visited → shouldSkip pkg filt = false →
      build_test_graph_bfs_aux filt tg (fuel + 1)
          ⟨pkg :: rest, visited, graph, cycles⟩
        = build_test_graph_bfs_aux filt tg fuel
          ⟨rest ++ (tgGet tg pkg).filter
              (fun dep => decide (¬ dep ∈ pkg :: visited)),
            pkg :: visited,
            dictInsert graph pkg (test_record (tgGet tg pkg)), cycles⟩
      ∧ ∀ d ∈ tgGet tg pkg, d ∈ (test_record (tgGet tg pkg)).map Prod.fst)
    ∧ (∀ (repo_url : Str) (http : Str → FetchResponse) (filt : Str)
        (fuel : Nat) (pkg ver : Str) (rest : List (Str × Str))
        (visited : List Str) (graph : List (Str × List (Str × Str)))
        (cycles : List Str),
      ¬ pkg ∈ visited → shouldSkip pkg filt = true →
      build_dependency_graph_bfs_aux repo_url http filt (fuel + 1)
          ⟨(pkg, ver) :: rest, visited, graph, cycles⟩
        = build_dependency_graph_bfs_aux repo_url http filt fuel
          ⟨rest, pkg :: visited, graph, cycles⟩)
    ∧ (∀ (repo_url : Str) (http : Str → FetchResponse) (filt : Str)
        (fuel : Nat) (s : RemoteBfsState),
      (∀ k ∈ s.graph.map Prod.fst, shouldSkip k filt = false) →
      ∀ k ∈ ((build_dependency_graph_bfs_aux repo_url http filt fuel
          s).graph).map Prod.fst,
        shouldSkip k filt = false)
    ∧ (∀ (repo_url : Str) (http : Str → FetchResponse) (filt : Str)
        (fuel : Nat) (pkg ver : Str) (rest : List (Str × Str))
        (visited : List Str) (graph : List (Str × List (Str × Str)))
        (cycles : List Str) (dependencies : List (Str × Str)),
      ¬ pkg ∈ visited → shouldSkip pkg filt = false →
      expand_package repo_url http pkg ver = .ok dependencies →
      build_dependency_graph_bfs_aux repo_url http filt (fuel + 1)
          ⟨(pkg, ver) :: rest, visited, graph, cycles⟩
        = build_dependency_graph_bfs_aux repo_url http filt fuel
          ⟨rest ++ (dependencies.filter
                (fun d => decide (¬ d.fst ∈ pkg :: visited))).map
              (fun d => (d.fst, ver)),
            pkg :: visited, dictInsert graph pkg dependencies, cycles⟩) := by
  refine ⟨?_, ?_, ?_, ?_, ?_, ?_⟩
  · intro filt tg fuel pkg rest visited graph cycles hv hs
    simp only [build_test_graph_bfs_aux]
    rw [if_neg hv, if_pos hs]
  · exact fun filt tg fuel s => test_bfs_graph_keys_not_skipped filt tg fuel s
  · intro filt tg fuel pkg rest visited graph cycles hv hs
    constructor
    · simp only [build_test_graph_bfs_aux]
      rw [if_neg hv, if_neg (by rw [hs]; exact Bool.false_ne_true)]
    · exact fun d hd => test_record_mem_keys _ d hd
  · intro repo_url http filt fuel pkg ver rest visited graph cycles hv hs
    simp only [build_dependency_graph_bfs_aux]
    rw [if_neg hv, if_pos hs]
  · exact fun repo_url http filt fuel s =>
      remote_bfs_graph_keys_not_skipped repo_url http filt fuel s
  · intro repo_url http filt fuel pkg ver rest visited graph cycles
      dependencies hv hs hexp
    simp only [build_dependency_graph_bfs_aux]
    rw [if_neg hv, if_neg (by rw [hs]; exact Bool.false_ne_true), hexp]

theorem filtered_packages_visited_not_keyed_witness :
    (build_test_graph_bfs_aux "a".data
          [("root".data, ["apple".data, "b".data])] 1
          ⟨["apple".data], ["root".data], [], []⟩
        = build_test_graph_bfs_aux "a".data
          [("root".data, ["apple".data, "b".data])] 0
          ⟨[], ["apple".data, "root".data], [], []⟩)
    ∧ (∀ k ∈ ((build_test_graph_bfs_aux "a".data
          [("root".data, ["apple".data, "b".data])] 5
          ⟨["root".data], [], [], []⟩).graph).map Prod.fst,
        shouldSkip k "a".data = false)
    ∧ (∀ d ∈ tgGet [("root".data, ["apple".data, "b".data])] "root".data,
        d ∈ (test_record
          (tgGet [("root".data, ["apple".data, "b".data])]
            "root".data)).map Prod.fst)
    ∧ (build_dependency_graph_bfs_aux "https://github.com/o/r".data
          (fun _ => FetchResponse.payload
            (some "[dependencies]\napple = \"1\"\nb = \"2\"".data))
          "a".data 1 ⟨[("apple".data, "1".data)], ["root".data], [], []⟩
        = build_dependency_graph_bfs_aux "https://github.com/o/r".data
          (fun _ => FetchResponse.payload
            (some "[dependencies]\napple = \"1\"\nb = \"2\"".data))
          "a".data 0 ⟨[], ["apple".data, "root".data], [], []⟩)
    ∧ (∀ k ∈ ((build_dependency_graph_bfs_aux "https://github.com/o/r".data
          (fun _ => FetchResponse.payload
            (some "[dependencies]\napple = \"1\"\nb = \"2\"".data))
          "a".data 5 ⟨[("root".data, "1".data)], [], [], []⟩).graph).map
            Prod.fst,
        shouldSkip k "a".data = false)
    ∧ (build_dependency_graph_bfs_aux "https://github.com/o/r".data
          (fun _ => FetchResponse.payload
            (some "[dependencies]\napple = \"1\"\nb = \"2\"".data))
          "a".data 1 ⟨[("root".data, "1".data)], [], [], []⟩
        = build_dependency_graph_bfs_aux "https://github.com/o/r".data
          (fun _ => FetchResponse.payload
            (some "[dependencies]\napple = \"1\"\nb = \"2\"".data))
          "a".data 0
          ⟨[("apple".data, "1".data), ("b".data, "1".data)], ["root".data],
            [("root".data, [("apple".data, "1".data), ("b".data, "2".data)])],
            []⟩) := by
  refine ⟨?_, ?_, ?_, ?_, ?_, ?_⟩
  · exact filtered_packages_visited_not_keyed.1 "a".data _ 0 "apple".data
      [] ["root".data] [] [] (by decide) (by decide)
  · exact filtered_packages_visited_not_keyed.2.1 "a".data _ 5 _ (by decide)
  · exact (filtered_packages_visited_not_keyed.2.2.1 "a".data
      [("root".data, ["apple".data, "b".data])] 0 "root".data [] [] [] []
      (by decide) (by decide)).2
  · exact filtered_packages_visited_not_keyed.2.2.2.1 _ _ "a".data 0
      "apple".data "1".data [] ["root".data] [] [] (by decide) (by decide)
  · exact filtered_packages_visited_not_keyed.2.2.2.2.1 _ _ "a".data 5 _
      (by decide)
  · exact filtered_packages_visited_not_keyed.2.2.2.2.2 _ _ "a".data 0
      "root".data "1".data [] [] [] []
      [("apple".data, "1".data), ("b".data, "2".data)]
      (by decide) (by decide) rfl

/-! ### The graph report -/

instance keyOrderTotal :
    IsTotal (Str × List (Str × Str)) (fun a b => a.fst ≤ b.fst) :=
  ⟨fun a b => le_total a.fst b.fst⟩

instance keyOrderTrans :
    IsTrans (Str × List (Str × Str)) (fun a b => a.fst ≤ b.fst) :=
  ⟨fun _ _ _ hab hbc => le_trans hab hbc⟩

theorem any_nonempty_false_iff_sum_zero
    (graph : List (Str × List (Str × Str))) :
    (graph.any (fun e => !e.snd.isEmpty)) = false
      ↔ (graph.map (fun e => e.snd.length)).sum = 0 := by
  induction graph with
  | nil => simp
  | cons e rest ih =>
    rw [List.any_cons, List.map_cons, List.sum_cons, Bool.or_eq_false_iff, ih]
    have hne : ((!e.snd.isEmpty) = false) ↔ e.snd.length = 0 := by
      rw [show ((!e.snd.isEmpty) = false) ↔ e.snd.isEmpty = true by
        cases e.snd.isEmpty <;> simp]
      exact List.isEmpty_iff_length_eq_zero
    rw [hne]
    omega

theorem sum_zero_of_nil (graph : List (Str × List (Str × Str)))
    (h : graph.length = 0) :
    (graph.map (fun e => e.snd.length)).sum = 0 := by
  rw [List.length_eq_zero] at h
  rw [h]
  rfl

/-- C8: the report counts nodes as the number of graph keys and edges as
the sum of the per-node dependency counts; it classifies the graph as
"has transitive edges" exactly when there is more than one node and at
least one edge, as "no edges at all" exactly when the edge count is zero,
and as "single node only" exactly when edges exist and there is exactly one
node; and its adjacency listing is the graph's entries sorted by package
name, each node's dependency names sorted.  The key-nodup hypothesis is
what `sorted(graph.items())` needs in the source (dicts are not
comparable) and holds for every graph the builders produce. -/
theorem graph_report_correct (graph : List (Str × List (Str × Str)))
    (hnd : (graph.map Prod.fst).Nodup) :
    (print_graph_info graph).total_packages = (graph.map Prod.fst).length
    ∧ (print_graph_info graph).total_dependencies
        = (graph.map (fun e => e.snd.length)).sum
    ∧ ((print_graph_info graph).classification = .transitive
        ↔ 1 < (print_graph_info graph).total_packages
          ∧ 0 < (print_graph_info graph).total_dependencies)
    ∧ ((print_graph_info graph).classification = .noEdges
        ↔ (print_graph_info graph).total_dependencies = 0)
    ∧ ((print_graph_info graph).classification = .singleNode
        ↔ 0 < (print_graph_info graph).total_dependencies
          ∧ (print_graph_info graph).total_packages = 1)
    ∧ ((print_graph_info graph).listing.map Prod.fst).Perm
        (graph.map Prod.fst)
    ∧ List.Sorted (· ≤ ·) ((print_graph_info graph).listing.map Prod.fst)
    ∧ (∀ p deps, (p, deps) ∈ (print_graph_info graph).listing →
        List.Sorted (· ≤ ·) deps
        ∧ ∃ record, (p, record) ∈ graph ∧ deps.Perm (record.map Prod.fst)) := by
  have htp : (print_graph_info graph).total_packages = graph.length := rfl
  have htd : (print_graph_info graph).total_dependencies
      = (graph.map (fun e => e.snd.length)).sum := rfl
  have hcls : (print_graph_info graph).classification
      = (if (graph.any (fun e => !e.snd.isEmpty)) = false then
          GraphClass.noEdges
        else if graph.length = 1 then GraphClass.singleNode
        else GraphClass.transitive) := rfl
  have hlst : (print_graph_info graph).listing
      = (List.insertionSort (fun a b : Str × List (Str × Str) =>
            a.fst ≤ b.fst) graph).map
          (fun e => (e.fst, List.insertionSort (fun a b : Str => a ≤ b)
            (e.snd.map Prod.fst))) := rfl
  refine ⟨by rw [htp, List.length_map], htd, ?_, ?_, ?_, ?_, ?_, ?_⟩
  · rw [hcls, htp, htd]
    by_cases hb : (graph.any (fun e => !e.snd.isEmpty)) = false
    · rw [if_pos hb]
      rw [any_nonempty_false_iff_sum_zero] at hb
      constructor
      · intro h; exact absurd h (by simp)
      · intro h; omega
    · rw [if_neg hb]
      have hsum : (graph.map (fun e => e.snd.length)).sum ≠ 0 := by
        intro h0
        exact hb ((any_nonempty_false_iff_sum_zero graph).mpr h0)
      by_cases h1 : graph.length = 1
      · rw [if_pos h1]
        constructor
        · intro h; exact absurd h (by simp)
        · intro h; omega
      · rw [if_neg h1]
        have hlen : graph.length ≠ 0 := by
          intro h0
          exact hsum (sum_zero_of_nil graph h0)
        exact ⟨fun _ => ⟨by omega, by omega⟩, fun _ => rfl⟩
  · rw [hcls, htd]
    by_cases hb : (graph.any (fun e => !e.snd.isEmpty)) = false
    · rw [if_pos hb]
      rw [any_nonempty_false_iff_sum_zero] at hb
      exact ⟨fun _ => hb, fun _ => rfl⟩
    · rw [if_neg hb]
      have hsum : (graph.map (fun e => e.snd.length)).sum ≠ 0 := by
        intro h0
        exact hb ((any_nonempty_false_iff_sum_zero graph).mpr h0)
      by_cases h1 : graph.length = 1
      · rw [if_pos h1]
        exact ⟨fun h => absurd h (by simp), fun h => absurd h hsum⟩
      · rw [if_neg h1]
        exact ⟨fun h => absurd h (by simp), fun h => absurd h hsum⟩
  · rw [hcls, htp, htd]
    by_cases hb : (graph.any (fun e => !e.snd.isEmpty)) = false
    · rw [if_pos hb]
      rw [any_nonempty_false_iff_sum_zero] at hb
      constructor
      · intro h; exact absurd h (by simp)
      · intro h; omega
    · rw [if_neg hb]
      have hsum : (graph.map (fun e => e.snd.length)).sum ≠ 0 := by
        intro h0
        exact hb ((any_nonempty_false_iff_sum_zero graph).mpr h0)
      by_cases h1 : graph.length = 1
      · rw [if_pos h1]
        exact ⟨fun _ => ⟨by omega, h1⟩, fun _ => rfl⟩
      · rw [if_neg h1]
        exact ⟨fun h => absurd h (by simp), fun h => absurd h.2 h1⟩
  · have hmf : (print_graph_info graph).listing.map Prod.fst
        = (List.insertionSort (fun a b : Str × List (Str × Str) =>
            a.fst ≤ b.fst) graph).map Prod.fst := by
      rw [hlst, List.map_map]
      rfl
    rw [hmf]
    exact (List.perm_insertionSort
      (fun a b : Str × List (Str × Str) => a.fst ≤ b.fst) graph).map Prod.fst
  · have hmf : (print_graph_info graph).listing.map Prod.fst
        = (List.insertionSort (fun a b : Str × List (Str × Str) =>
            a.fst ≤ b.fst) graph).map Prod.fst := by
      rw [hlst, List.map_map]
      rfl
    rw [hmf]
    exact List.Pairwise.map Prod.fst (fun a b h => h)
      (List.sorted_insertionSort
        (fun a b : Str × List (Str × Str) => a.fst ≤ b.fst) graph)
  · intro p deps hmem
    rw [hlst] at hmem
    rcases List.mem_map.mp hmem with ⟨e, he, heq⟩
    have hp : e.fst = p := congrArg Prod.fst heq
    have hdeps : List.insertionSort (fun a b : Str => a ≤ b)
        (e.snd.map Prod.fst) = deps := congrArg Prod.snd heq
    constructor
    · rw [← hdeps]
      exact List.sorted_insertionSort (fun a b : Str => a ≤ b)
        (e.snd.map Prod.fst)
    · refine ⟨e.snd, ?_, ?_⟩
      · have hg : e ∈ graph := (List.perm_insertionSort
          (fun a b : Str × List (Str × Str) => a.fst ≤ b.fst) graph).subset he
        rw [← hp]
        exact hg
      · rw [← hdeps]
        exact List.perm_insertionSort (fun a b : Str => a ≤ b)
          (e.snd.map Prod.fst)

theorem graph_report_correct_witness :
    (print_graph_info
        [("b".data, [("z".data, "1".data), ("a".data, "2".data)]),
          ("a".data, [])]).classification = .transitive
      ↔ 1 < (print_graph_info
          [("b".data, [("z".data, "1".data), ("a".data, "2".data)]),
            ("a".data, [])]).total_packages
        ∧ 0 < (print_graph_info
          [("b".data, [("z".data, "1".data), ("a".data, "2".data)]),
            ("a".data, [])]).total_dependencies :=
  (graph_report_correct
    [("b".data, [("z".data, "1".data), ("a".data, "2".data)]),
      ("a".data, [])] (by decide)).2.2.1

/-! ### Termination of the two BFS loops -/

theorem sum_map_filter_le (g : Str → Nat) (U : List Str) (p q : Str → Bool)
    (hpq : ∀ x, p x = true → q x = true) :
    ((U.filter p).map g).sum ≤ ((U.filter q).map g).sum := by
  induction U with
  | nil => simp
  | cons x xs ih =>
    rw [List.filter_cons, List.filter_cons]
    by_cases hp : p x = true
    · rw [if_pos hp, if_pos (hpq x hp)]
      simp only [List.map_cons, List.sum_cons]
      omega
    · rw [if_neg hp]
      by_cases hq : q x = true
      · rw [if_pos hq]
        simp only [List.map_cons, List.sum_cons]
        omega
      · rw [if_neg hq]
        exact ih

theorem sum_map_filter_visit (g : Str → Nat) (U : List Str)
    (visited : List Str) (v : Str) (hvU : v ∈ U) (hvv : ¬ v ∈ visited) :
    ((U.filter (fun x => decide (¬ x ∈ v :: visited))).map g).sum + g v
      ≤ ((U.filter (fun x => decide (¬ x ∈ visited))).map g).sum := by
  induction U with
  | nil => cases hvU
  | cons x xs ih =>
    rw [List.filter_cons, List.filter_cons]
    by_cases hx : x = v
    · rw [if_neg (by simp [hx]), if_pos (by simp [hx]; exact hvv)]
      simp only [List.map_cons, List.sum_cons]
      have hmono := sum_map_filter_le g xs
        (fun y => decide (¬ y ∈ v :: visited))
        (fun y => decide (¬ y ∈ visited))
        (fun y hy => by
          simp only [decide_eq_true_eq] at hy ⊢
          exact fun hmem => hy (List.mem_cons_of_mem _ hmem))
      rw [hx]
      omega
    · have hiff : (x ∈ v :: visited) ↔ (x ∈ visited) := by
        rw [List.mem_cons]
        exact ⟨fun h => h.elim (fun h1 => absurd h1 hx) id, Or.inr⟩
      have hvxs : v ∈ xs := by
        rcases List.mem_cons.mp hvU with h | h
        · exact absurd h.symm hx
        · exact h
      by_cases hxv : x ∈ visited
      · rw [if_neg (by simp; exact fun _ => hxv),
          if_neg (by simp; exact hxv)]
        exact ih hvxs
      · rw [if_pos (by simp; exact ⟨hx, hxv⟩),
          if_pos (by simp; exact hxv)]
        simp only [List.map_cons, List.sum_cons]
        have hrec := ih hvxs
        omega

theorem test_bfs_terminates (filt : Str) (tg : List (Str × List Str))
    (U : List Str) :
    ∀ (fuel : Nat) (s : TestBfsState),
      (∀ x ∈ s.queue, x ∈ U) →
      (∀ v ∈ U, ∀ d ∈ tgGet tg v, d ∈ U) →
      testMeasure tg U s.queue s.visited ≤ fuel →
      (build_test_graph_bfs_aux filt tg fuel s).queue = [] := by
  intro fuel
  induction fuel with
  | zero =>
    intro s hq hcl hm
    unfold testMeasure at hm
    have hq0 : s.queue.length = 0 := by omega
    show s.queue = []
    exact List.length_eq_zero.mp hq0
  | succ n ih =>
    intro s hq hcl hm
    obtain ⟨queue, visited, graph, cycles⟩ := s
    cases queue with
    | nil => rfl
    | cons pkg rest =>
      have hpkgU : pkg ∈ U := hq pkg (List.mem_cons_self _ _)
      simp only [build_test_graph_bfs_aux]
      by_cases hv : pkg ∈ visited
      · rw [if_pos hv]
        refine ih _ (fun x hx => hq x (List.mem_cons_of_mem _ hx)) hcl ?_
        unfold testMeasure at hm ⊢
        dsimp only at hm ⊢
        simp only [List.length_cons] at hm
        omega
      · rw [if_neg hv]
        have hdec := sum_map_filter_visit
          (fun v => 1 + (tgGet tg v).length) U visited pkg hpkgU hv
        dsimp only at hdec
        by_cases hs : shouldSkip pkg filt = true
        · rw [if_pos hs]
          refine ih _ (fun x hx => hq x (List.mem_cons_of_mem _ hx)) hcl ?_
          unfold testMeasure at hm ⊢
          dsimp only at hm ⊢
          simp only [List.length_cons] at hm
          omega
        · rw [if_neg hs]
          refine ih _ ?_ hcl ?_
          · intro x hx
            rcases List.mem_append.mp hx with h1 | h1
            · exact hq x (List.mem_cons_of_mem _ h1)
            · exact hcl pkg hpkgU x (List.mem_of_mem_filter h1)
          · unfold testMeasure at hm ⊢
            dsimp only at hm ⊢
            simp only [List.length_cons] at hm
            have hlen : (rest ++ (tgGet tg pkg).filter
                (fun dep => decide (¬ dep ∈ pkg :: visited))).length
                ≤ rest.length + (tgGet tg pkg).length := by
              rw [List.length_append]
              have hf := List.length_filter_le
                (fun dep => decide (¬ dep ∈ pkg :: visited)) (tgGet tg pkg)
              omega
            omega

theorem remote_bfs_terminates (repo_url : Str) (http : Str → FetchResponse)
    (filt : Str) (U : List Str) (v0 : Str) :
    ∀ (fuel : Nat) (s : RemoteBfsState),
      (∀ e ∈ s.queue, e.fst ∈ U ∧ e.snd = v0) →
      (∀ d ∈ remoteDeps repo_url http v0, d.fst ∈ U) →
      remoteMeasure repo_url http v0 U s.queue s.visited ≤ fuel →
      (build_dependency_graph_bfs_aux repo_url http filt fuel s).queue
        = [] := by
  intro fuel
  induction fuel with
  | zero =>
    intro s hq hcl hm
    unfold remoteMeasure at hm
    have hq0 : s.queue.length = 0 := by omega
    show s.queue = []
    exact List.length_eq_zero.mp hq0
  | succ n ih =>
    intro s hq hcl hm
    obtain ⟨queue, visited, graph, cycles⟩ := s
    cases queue with
    | nil => rfl
    | cons hd rest =>
      obtain ⟨pkg, ver⟩ := hd
      obtain ⟨hpkgU, hver⟩ := hq (pkg, ver) (List.mem_cons_self _ _)
      subst hver
      simp only [build_dependency_graph_bfs_aux]
      by_cases hv : pkg ∈ visited
      · rw [if_pos hv]
        refine ih _ (fun e he => hq e (List.mem_cons_of_mem _ he)) hcl ?_
        unfold remoteMeasure at hm ⊢
        dsimp only at hm ⊢
        simp only [List.length_cons] at hm
        omega
      · rw [if_neg hv]
        have hdec := sum_map_filter_visit
          (fun _ => 1 + (remoteDeps repo_url http ver).length) U visited pkg
          hpkgU hv
        dsimp only at hdec
        by_cases hs : shouldSkip pkg filt = true
        · rw [if_pos hs]
          refine ih _ (fun e he => hq e (List.mem_cons_of_mem _ he)) hcl ?_
          unfold remoteMeasure at hm ⊢
          dsimp only at hm ⊢
          simp only [List.length_cons] at hm
          omega
        · rw [if_neg hs]
          cases hexp : expand_package repo_url http pkg ver with
          | error e =>
            refine ih _ (fun e he => hq e (List.mem_cons_of_mem _ he))
              hcl ?_
            unfold remoteMeasure at hm ⊢
            dsimp only at hm ⊢
            simp only [List.length_cons] at hm
            omega
          | ok dependencies =>
            have hrd : remoteDeps repo_url http ver = dependencies := by
              unfold remoteDeps
              have h2 : expand_package repo_url http [] ver
                  = .ok dependencies := hexp
              rw [h2]
            refine ih _ ?_ hcl ?_
            · intro e he
              rcases List.mem_append.mp he with h1 | h1
              · exact hq e (List.mem_cons_of_mem _ h1)
              · rcases List.mem_map.mp h1 with ⟨d, hd, hde⟩
                have hdU : d.fst ∈ U := by
                  refine hcl d ?_
                  rw [hrd]
                  exact List.mem_of_mem_filter hd
                rw [← hde]
                exact ⟨hdU, rfl⟩
            · unfold remoteMeasure at hm ⊢
              dsimp only at hm ⊢
              rw [← hrd]
              simp only [List.length_cons] at hm
              have hlen : (rest ++ ((remoteDeps repo_url http ver).filter
                    (fun d => decide (¬ d.fst ∈ pkg :: visited))).map
                  (fun d => (d.fst, ver))).length
                  ≤ rest.length + (remoteDeps repo_url http ver).length := by
                rw [List.length_append, List.length_map]
                have hf := List.length_filter_le
                  (fun d => decide (¬ d.fst ∈ pkg :: visited))
                  (remoteDeps repo_url http ver)
                omega
              omega

/-- C7: both BFS traversals terminate on every finite reachable universe
with a deterministic manifest source and bounded fan-out.  The statement
exhibits explicit sufficient fuel: the worklist measure — frontier length
plus one dequeue and one fan-out allowance per not-yet-visited universe
member — strictly decreases at every dequeue (the VisitSet only grows, a
dequeue either shrinks the frontier or newly visits a name, and enqueues
are bounded by the fan-out of the newly visited node), so any fuel at
least the initial measure drains the frontier.  In remote mode every
frontier entry carries the root's version, so the fan-out is the constant
size of the single record fetched at that version. -/
theorem bfs_traversals_terminate :
    (∀ (filt : Str) (tg : List (Str × List Str)) (U : List Str) (fuel : Nat)
        (s : TestBfsState),
      (∀ x ∈ s.queue, x ∈ U) →
      (∀ v ∈ U, ∀ d ∈ tgGet tg v, d ∈ U) →
      testMeasure tg U s.queue s.visited ≤ fuel →
      (build_test_graph_bfs_aux filt tg fuel s).queue = [])
    ∧ (∀ (repo_url : Str) (http : Str → FetchResponse) (filt : Str)
        (U : List Str) (v0 : Str) (fuel : Nat) (s : RemoteBfsState),
      (∀ e ∈ s.queue, e.fst ∈ U ∧ e.snd = v0) →
      (∀ d ∈ remoteDeps repo_url http v0, d.fst ∈ U) →
      remoteMeasure repo_url http v0 U s.queue s.visited ≤ fuel →
      (build_dependency_graph_bfs_aux repo_url http filt fuel s).queue
        = []) :=
  ⟨fun filt tg U fuel s => test_bfs_terminates filt tg U fuel s,
    fun repo_url http filt U v0 fuel s =>
      remote_bfs_terminates repo_url http filt U v0 fuel s⟩

theorem bfs_traversals_terminate_witness :
    (build_test_graph_bfs_aux [] [("r".data, ["a".data]), ("a".data, [])] 10
        ⟨["r".data], [], [], []⟩).queue = []
    ∧ (build_dependency_graph_bfs_aux "https://github.com/o/r".data
        (fun _ => FetchResponse.payload (some "[dependencies]\na = \"1\"".data))
        [] 10 ⟨[("r".data, "1".data)], [], [], []⟩).queue = [] :=
  ⟨bfs_traversals_terminate.1 [] [("r".data, ["a".data]), ("a".data, [])]
      ["r".data, "a".data] 10 ⟨["r".data], [], [], []⟩
      (by decide) (by decide) (by decide),
    bfs_traversals_terminate.2 "https://github.com/o/r".data
      (fun _ => FetchResponse.payload (some "[dependencies]\na = \"1\"".data))
      [] ["r".data, "a".data] "1".data 10
      ⟨[("r".data, "1".data)], [], [], []⟩
      (by decide) (by decide) (by decide)⟩
